import Mathlib

/-!
Verification of the quotient-filter service: a shallow embedding of the
quotient filter (packed 64-bit slot words, run/cluster metadata bits,
FNV-64a fingerprinting, insert/lookup/remove/count) and of the replicated
state machine (apply, snapshot, restore), together with theorems about the
embedded operations.  Machine words are `Nat` with explicit reduction
modulo `2^64` wherever the original Go arithmetic wraps; loops are given
explicit fuel (always at least the slot-array size plus one, which bounds
every terminating walk of the original code).
-/

/-- `2^64`, the modulus of Go `uint64` arithmetic. -/
def wordMod : Nat := 18446744073709551616

/-- `2^64 - 1`, the all-ones 64-bit word. -/
def wordMax : Nat := 18446744073709551615

/-- Go `x - 1` on `uint64`: wraps at zero. -/
def decWrap (x : Nat) : Nat := (x + wordMax) % wordMod

/-- Metadata bit: some key has this canonical quotient. -/
def occupied : Nat := 1

/-- Metadata bit: this slot begins a run. -/
def runStart : Nat := 2

/-- Metadata bit: this slot ends a run. -/
def runEnd : Nat := 4

/-- Metadata bit: this slot's contents are shifted right of their canonical slot. -/
def shifted : Nat := 8

/-- FNV-64a offset basis (Go `hash/fnv`, `fnv.New64a`). -/
def fnvOffset : Nat := 14695981039346656037

/-- FNV-64a prime. -/
def fnvPrime : Nat := 1099511628211

/-- FNV-64a of a byte string, as computed by Go `fnv.New64a().Write(data).Sum64()`. -/
def fnv64a (data : List Nat) : Nat :=
  data.foldl (fun h b => ((h ^^^ b) * fnvPrime) % wordMod) fnvOffset

/-- The quotient-filter state: packed slot words, index mask, quotient width,
and the fingerprint counter (Go `QuotientFilter`; the stripe locks carry no
sequential state and are omitted). -/
structure QuotientFilter where
  data : List Nat
  mask : Nat
  quotient : Nat
  count : Int
deriving DecidableEq

/-- Go `NewQuotientFilter`: `2^logSize` zero slots. -/
def NewQuotientFilter (logSize : Nat) : QuotientFilter :=
  { data := List.replicate (2 ^ logSize) 0
    mask := 2 ^ logSize - 1
    quotient := logSize
    count := 0 }

namespace QuotientFilter

/-- Read the slot word at `index &&& mask` (Go `qf.data[index&qf.mask]`). -/
def getWord (qf : QuotientFilter) (index : Nat) : Nat :=
  qf.data.getD (index &&& qf.mask) 0

/-- Write the slot word at `index &&& mask`, truncated to 64 bits. -/
def setWord (qf : QuotientFilter) (index v : Nat) : QuotientFilter :=
  { qf with data := qf.data.set (index &&& qf.mask) (v % wordMod) }

/-- Read a slot word at a raw (unmasked) index, as in the direct array
accesses of `insertIntoSlot` and `shiftLeft`. -/
def dataGet (qf : QuotientFilter) (index : Nat) : Nat :=
  qf.data.getD index 0

/-- Write a slot word at a raw (unmasked) index. -/
def dataSet (qf : QuotientFilter) (index v : Nat) : QuotientFilter :=
  { qf with data := qf.data.set index (v % wordMod) }

def isOccupied (qf : QuotientFilter) (index : Nat) : Bool :=
  qf.getWord index &&& occupied != 0

def setOccupied (qf : QuotientFilter) (index : Nat) : QuotientFilter :=
  qf.setWord index (qf.getWord index ||| occupied)

def clearOccupied (qf : QuotientFilter) (index : Nat) : QuotientFilter :=
  qf.setWord index (qf.getWord index &&& (wordMax - occupied))

def isRunStart (qf : QuotientFilter) (index : Nat) : Bool :=
  qf.getWord index &&& runStart != 0

def setRunStart (qf : QuotientFilter) (index : Nat) : QuotientFilter :=
  qf.setWord index (qf.getWord index ||| runStart)

def clearRunStart (qf : QuotientFilter) (index : Nat) : QuotientFilter :=
  qf.setWord index (qf.getWord index &&& (wordMax - runStart))

def isRunEnd (qf : QuotientFilter) (index : Nat) : Bool :=
  qf.getWord index &&& runEnd != 0

def setRunEnd (qf : QuotientFilter) (index : Nat) : QuotientFilter :=
  qf.setWord index (qf.getWord index ||| runEnd)

def clearRunEnd (qf : QuotientFilter) (index : Nat) : QuotientFilter :=
  qf.setWord index (qf.getWord index &&& (wordMax - runEnd))

def isShifted (qf : QuotientFilter) (index : Nat) : Bool :=
  qf.getWord index &&& shifted != 0

def setShifted (qf : QuotientFilter) (index : Nat) : QuotientFilter :=
  qf.setWord index (qf.getWord index ||| shifted)

def clearShifted (qf : QuotientFilter) (index : Nat) : QuotientFilter :=
  qf.setWord index (qf.getWord index &&& (wordMax - shifted))

/-- Go `getRemainder`: upper 60 bits of the slot word. -/
def getRemainder (qf : QuotientFilter) (index : Nat) : Nat :=
  qf.getWord index >>> 4

/-- Go `setRemainder`: `(old & 0xF) | (remainder << 4)` with 64-bit truncation. -/
def setRemainder (qf : QuotientFilter) (index remainder : Nat) : QuotientFilter :=
  qf.setWord index ((qf.getWord index &&& 15) ||| (remainder <<< 4) % wordMod)

/-- Go `clearRemainder`: keep only the low 4 metadata bits. -/
def clearRemainder (qf : QuotientFilter) (index : Nat) : QuotientFilter :=
  qf.setWord index (qf.getWord index &&& 15)

/-- Go `clearSlot`: zero the whole word. -/
def clearSlot (qf : QuotientFilter) (index : Nat) : QuotientFilter :=
  qf.setWord index 0

/-- Go `hash`: FNV-64a split into quotient (low bits) and remainder (high bits). -/
def hash (qf : QuotientFilter) (data : List Nat) : Nat × Nat :=
  let hashValue := fnv64a data
  (hashValue &&& qf.mask, hashValue >>> qf.quotient)

/-- Go `isFull`. -/
def isFull (qf : QuotientFilter) : Bool :=
  qf.count ≥ (qf.data.length : Int)

/-- Loop of Go `findRunStart`: walk backwards while `shifted && !runStart`. -/
def findRunStartAux (qf : QuotientFilter) : Nat → Nat → Nat
  | slot, fuel + 1 =>
    if qf.isShifted slot && !(qf.isRunStart slot) then
      findRunStartAux qf (decWrap slot &&& qf.mask) fuel
    else slot
  | slot, 0 => slot

def findRunStart (qf : QuotientFilter) (quotient : Nat) : Nat :=
  findRunStartAux qf quotient (qf.data.length + 1)

/-- Loop of Go `findRunEnd`: walk forward while not at a `runEnd` and the
next slot is shifted. -/
def findRunEndAux (qf : QuotientFilter) : Nat → Nat → Nat
  | slot, fuel + 1 =>
    if !(qf.isRunEnd slot) then
      let nextSlot := (slot + 1) &&& qf.mask
      if !(qf.isShifted nextSlot) then slot
      else findRunEndAux qf nextSlot fuel
    else slot
  | slot, 0 => slot

def findRunEnd (qf : QuotientFilter) (quotient : Nat) : Nat :=
  findRunEndAux qf (qf.findRunStart quotient) (qf.data.length + 1)

/-- Scan loop shared by Go `Exists` and `existsUnsafe`: compare remainders
from `slot` up to (and including) `fin`, wrapping modulo the mask. -/
def scanRun (qf : QuotientFilter) (remainder fin : Nat) : Nat → Nat → Bool
  | slot, fuel + 1 =>
    if qf.getRemainder slot = remainder then true
    else if slot = fin then false
    else scanRun qf remainder fin ((slot + 1) &&& qf.mask) fuel
  | _, 0 => false

/-- Go `existsUnsafe`. -/
def existsUnsafe (qf : QuotientFilter) (quotient remainder : Nat) : Bool :=
  if !(qf.isOccupied quotient) then false
  else
    let a := qf.findRunStart quotient
    let b := qf.findRunEnd quotient
    qf.scanRun remainder b a (qf.data.length + 1)

/-- Loop of Go `findSlot`: probe forward while occupied and shifted. -/
def findSlotAux (qf : QuotientFilter) : Nat → Nat → Nat
  | slot, fuel + 1 =>
    if qf.isOccupied slot then
      if !(qf.isShifted slot) then slot
      else findSlotAux qf ((slot + 1) &&& qf.mask) fuel
    else slot
  | slot, 0 => slot

def findSlot (qf : QuotientFilter) (quotient : Nat) : Nat :=
  findSlotAux qf quotient (qf.data.length + 1)

/-- Loop of Go `insertIntoSlot`: place the carried remainder/metadata,
pushing displaced contents one slot right until an empty slot is reached.
Where Go panics ("Filter is full", probe wrapped to the original slot) or
would loop forever, the model returns the state reached; no well-formed
run below capacity hits either case. -/
def insertIntoSlotAux (qf : QuotientFilter) (originalSlot : Nat) :
    Nat → Nat → Nat → Nat → QuotientFilter
  | slot, currRemainder, currMetadata, fuel + 1 =>
    if !(qf.isOccupied slot) then
      let qf := qf.setRemainder slot currRemainder
      qf.dataSet slot ((qf.dataGet slot &&& (wordMax - 15)) ||| currMetadata ||| runEnd)
    else
      let prevRemainder := qf.getRemainder slot
      let prevMetadata := qf.dataGet slot &&& 15
      let qf := qf.setRemainder slot currRemainder
      let qf := qf.dataSet slot ((qf.dataGet slot &&& (wordMax - 15)) ||| currMetadata)
      let currRemainder := prevRemainder
      let currMetadata := prevMetadata ||| shifted
      let step : QuotientFilter × Nat :=
        if qf.isRunEnd slot then (qf.clearRunEnd slot, currMetadata ||| runEnd)
        else (qf, currMetadata)
      let qf := step.1
      let currMetadata := step.2
      let slot := (slot + 1) &&& qf.mask
      if slot = originalSlot then qf
      else insertIntoSlotAux qf originalSlot slot currRemainder currMetadata fuel
  | _, _, _, 0 => qf

/-- Go `insertIntoSlot`. -/
def insertIntoSlot (qf : QuotientFilter) (slot remainder quotient : Nat) : QuotientFilter :=
  let currMetadata := occupied
  let currMetadata := if slot ≠ quotient then currMetadata ||| shifted else currMetadata
  let currMetadata :=
    if slot = quotient || !(qf.isRunStart slot) then currMetadata ||| runStart
    else currMetadata
  insertIntoSlotAux qf slot slot remainder currMetadata (qf.data.length + 1)

/-- Go `Insert`.  The Boolean is `true` exactly when the Go code returns the
`"filter is full"` error. -/
def Insert (qf : QuotientFilter) (data : List Nat) : QuotientFilter × Bool :=
  let quotient := (qf.hash data).1
  let remainder := (qf.hash data).2
  if qf.count ≥ (qf.data.length : Int) then (qf, true)
  else if qf.existsUnsafe quotient remainder then (qf, false)
  else
    let slot := qf.findSlot quotient
    let qf := qf.insertIntoSlot slot remainder quotient
    ({ qf with count := qf.count + 1 }, false)

/-- Go `Exists` (the elapsed-time return is dropped; the filter state is
returned to make the absence of mutation explicit). -/
def ExistsOp (qf : QuotientFilter) (data : List Nat) : QuotientFilter × Bool :=
  let quotient := (qf.hash data).1
  let remainder := (qf.hash data).2
  if !(qf.isOccupied quotient) then (qf, false)
  else
    let a := qf.findRunStart quotient
    let b := qf.findRunEnd quotient
    (qf, qf.scanRun remainder b a (qf.data.length + 1))

/-- Go `Count` (state returned for the same reason as `ExistsOp`). -/
def CountOp (qf : QuotientFilter) : QuotientFilter × Int :=
  (qf, qf.count)

/-- Loop of Go `shiftLeft`: copy each next word onto the current one until
reaching `stop`, then clear `stop`. -/
def shiftLeftAux (qf : QuotientFilter) (stop : Nat) : Nat → Nat → Nat → QuotientFilter
  | current, next, fuel + 1 =>
    if current = stop then qf.clearSlot stop
    else
      shiftLeftAux (qf.dataSet current (qf.dataGet next)) stop next
        ((next + 1) &&& qf.mask) fuel
  | _, _, 0 => qf

/-- Go `shiftLeft`. -/
def shiftLeft (qf : QuotientFilter) (start stop : Nat) : QuotientFilter :=
  shiftLeftAux qf stop start ((start + 1) &&& qf.mask) (qf.data.length + 1)

/-- Loop of Go `updateMetadataAfterRemoval`: set `shifted` on every slot
strictly between the run start and one past the run end. -/
def setShiftedRangeAux (stop : Nat) : QuotientFilter → Nat → Nat → QuotientFilter
  | qf, slot, fuel + 1 =>
    if slot = stop then qf
    else setShiftedRangeAux stop (qf.setShifted slot) ((slot + 1) &&& qf.mask) fuel
  | qf, _, 0 => qf

/-- Go `updateMetadataAfterRemoval`. -/
def updateMetadataAfterRemoval (qf : QuotientFilter) (quotient : Nat) : QuotientFilter :=
  if !(qf.isOccupied quotient) then qf
  else
    let a := qf.findRunStart quotient
    let b := qf.findRunEnd quotient
    let qf :=
      if a = b then ((qf.setRunStart a).setRunEnd a).clearShifted a
      else
        let qf := (qf.setRunStart a).setRunEnd b
        setShiftedRangeAux ((b + 1) &&& qf.mask) qf ((a + 1) &&& qf.mask)
          (qf.data.length + 1)
    if qf.getRemainder a = 0 && !(qf.isShifted a) then qf.clearOccupied quotient
    else qf

/-- Go `removeAt`. -/
def removeAt (qf : QuotientFilter) (slot quotient rs re : Nat) : QuotientFilter :=
  let isOnlyItemInRun := rs = re
  let isFirstItemInRun := slot = rs
  let isLastItemInRun := slot = re
  let qf :=
    if isOnlyItemInRun then
      ((((qf.clearOccupied quotient).clearRunStart slot).clearRunEnd slot).clearRemainder
        slot).clearShifted slot
    else
      let qf := qf.shiftLeft slot re
      let qf :=
        if isFirstItemInRun then
          let newRunStart := (slot + 1) &&& qf.mask
          let qf := (qf.clearRunStart slot).setRunStart newRunStart
          if newRunStart ≠ quotient then qf.setShifted newRunStart else qf
        else qf
      if isLastItemInRun then
        let newRunEnd := decWrap re &&& qf.mask
        (qf.clearRunEnd re).setRunEnd newRunEnd
      else qf
  qf.updateMetadataAfterRemoval quotient

/-- Scan loop of Go `Remove`: find the remainder in the run and remove it,
or return `false` with the state untouched. -/
def removeScan (qf : QuotientFilter) (quotient remainder rs re : Nat) :
    Nat → Nat → QuotientFilter × Bool
  | slot, fuel + 1 =>
    if qf.getRemainder slot = remainder then
      let qf2 := qf.removeAt slot quotient rs re
      ({ qf2 with count := qf2.count - 1 }, true)
    else if slot = re then (qf, false)
    else removeScan qf quotient remainder rs re ((slot + 1) &&& qf.mask) fuel
  | _, 0 => (qf, false)

/-- Go `Remove`. -/
def Remove (qf : QuotientFilter) (data : List Nat) : QuotientFilter × Bool :=
  let quotient := (qf.hash data).1
  let remainder := (qf.hash data).2
  if !(qf.isOccupied quotient) then (qf, false)
  else
    let a := qf.findRunStart quotient
    let b := qf.findRunEnd quotient
    qf.removeScan quotient remainder a b a (qf.data.length + 1)

end QuotientFilter

namespace QuotientFilter

/-- Modelled from the spec: step 1 of the run-location algorithm (§4.2.2),
walking backwards from `Q` while `shifted = 1 ∧ run_start = 0` to find the
cluster start.  Written from the spec text, for comparison with the
source's `findRunStart`/`findRunEnd`. -/
def specClusterStartAux (qf : QuotientFilter) : Nat → Nat → Nat
  | slot, fuel + 1 =>
    if qf.isShifted slot && !(qf.isRunStart slot) then
      specClusterStartAux qf (decWrap slot &&& qf.mask) fuel
    else slot
  | slot, 0 => slot

/-- Modelled from the spec: step 2 of §4.2.2, counting the set `occupied`
bits among the indices from the cluster start up to and including `Q`. -/
def specRankAux (qf : QuotientFilter) (q : Nat) : Nat → Nat → Nat → Nat
  | i, acc, fuel + 1 =>
    let acc := if qf.isOccupied i then acc + 1 else acc
    if i = q then acc else specRankAux qf q ((i + 1) &&& qf.mask) acc fuel
  | _, acc, 0 => acc

/-- Modelled from the spec: part of step 3 of §4.2.2, advancing the cursor
past `k` run terminators (`run_end` slots). -/
def specSkipRunEnds (qf : QuotientFilter) : Nat → Nat → Nat → Nat
  | pos, 0, _ => pos
  | pos, k + 1, fuel + 1 =>
    if qf.isRunEnd pos then specSkipRunEnds qf ((pos + 1) &&& qf.mask) k fuel
    else specSkipRunEnds qf ((pos + 1) &&& qf.mask) (k + 1) fuel
  | pos, _ + 1, 0 => pos

/-- Modelled from the spec: advance to the next slot with `run_start` set. -/
def specNextRunStart (qf : QuotientFilter) : Nat → Nat → Nat
  | pos, fuel + 1 =>
    if qf.isRunStart pos then pos
    else specNextRunStart qf ((pos + 1) &&& qf.mask) fuel
  | pos, 0 => pos

/-- Modelled from the spec: advance to the next slot with `run_end` set. -/
def specRunEndFrom (qf : QuotientFilter) : Nat → Nat → Nat
  | pos, fuel + 1 =>
    if qf.isRunEnd pos then pos
    else specRunEndFrom qf ((pos + 1) &&& qf.mask) fuel
  | pos, 0 => pos

/-- Modelled from the spec: the full run-location algorithm of §4.2.2 for a
canonical quotient `Q` with `occupied[Q] = 1`: find the cluster start, count
the rank of set `occupied` bits in `[cluster_start, Q]`, skip `rank − 1`
runs, and return the next run's start and end slots. -/
def specRunOfQuotient (qf : QuotientFilter) (q : Nat) : Nat × Nat :=
  let n := qf.data.length + 1
  let clusterStart := specClusterStartAux qf q n
  let rank := specRankAux qf q clusterStart 0 n
  let pos := specSkipRunEnds qf clusterStart (rank - 1) (2 * n)
  let a := specNextRunStart qf pos n
  (a, specRunEndFrom qf a n)

/-- A structurally sound filter: the slot array has `2^q` entries and the
index mask is `2^q − 1`, as established by `NewQuotientFilter` and
maintained by every operation. -/
def wellFormed (qf : QuotientFilter) : Prop :=
  qf.data.length = 2 ^ qf.quotient ∧ qf.mask + 1 = 2 ^ qf.quotient

instance (qf : QuotientFilter) : Decidable qf.wellFormed := by
  unfold wellFormed; infer_instance

/-- The slots of the run located by `findRunStart`/`findRunEnd` for a
canonical quotient, in scan order (wrap-around range from the run start to
the run end inclusive). -/
def runSlots (qf : QuotientFilter) (q : Nat) : List Nat :=
  let a := qf.findRunStart q
  let b := qf.findRunEnd q
  let n := qf.data.length
  let d := (b + n - a) % n
  (List.range (d + 1)).map (fun i => (a + i) % n)

end QuotientFilter

/-- A replication command as decoded from a committed log entry (Go
`RaftCommand`); the key is the byte string `[]byte(cmd.Key)`. -/
structure RaftCommand where
  operation : String
  key : List Nat
deriving DecidableEq

/-- The value Go `FSM.Apply` hands back as the commit response. -/
inductive ApplyResult where
  | insertResult (full : Bool)
  | removeResult (removed : Bool)
  | unknownCommand
deriving DecidableEq

namespace FSM

/-- Go `FSM.Apply`: dispatch a decoded command to the filter. -/
def Apply (qf : QuotientFilter) (cmd : RaftCommand) : QuotientFilter × ApplyResult :=
  if cmd.operation = "insert" then
    let r := QuotientFilter.Insert qf cmd.key
    (r.1, .insertResult r.2)
  else if cmd.operation = "remove" then
    let r := QuotientFilter.Remove qf cmd.key
    (r.1, .removeResult r.2)
  else (qf, .unknownCommand)

/-- Apply a sequence of committed commands in log order. -/
def applyAll (qf : QuotientFilter) (cmds : List RaftCommand) : QuotientFilter :=
  cmds.foldl (fun s c => (Apply s c).1) qf

/-- The record Go `FSM.Snapshot` passes to the gob encoder (the gzip + gob
byte-stream wrapping is an injective encoding supplied by the Go standard
library; the model works with the encoded record itself). -/
structure SnapshotData where
  Data : List Nat
  Mask : Nat
  Quotient : Nat
  Count : Int
deriving DecidableEq

/-- Go `FSM.Snapshot`: capture the slot array, mask, quotient width and count. -/
def Snapshot (qf : QuotientFilter) : SnapshotData :=
  { Data := qf.data, Mask := qf.mask, Quotient := qf.quotient, Count := qf.count }

/-- Go `FSM.Restore`: overwrite the filter's four fields with the decoded
snapshot record. -/
def Restore (qf : QuotientFilter) (s : SnapshotData) : QuotientFilter :=
  { qf with data := s.Data, mask := s.Mask, quotient := s.Quotient, count := s.Count }

end FSM

namespace QuotientFilter

lemma and_mask_eq_mod (qf : QuotientFilter) (hm : qf.mask + 1 = 2 ^ qf.quotient)
    (x : Nat) : x &&& qf.mask = x % 2 ^ qf.quotient := by
  have h : qf.mask = 2 ^ qf.quotient - 1 := by omega
  rw [h, Nat.and_pow_two_sub_one_eq_mod]

lemma findRunStartAux_le_mask (qf : QuotientFilter) :
    ∀ fuel slot, slot ≤ qf.mask → findRunStartAux qf slot fuel ≤ qf.mask := by
  intro fuel
  induction fuel with
  | zero => intro slot h; exact h
  | succ f ih =>
    intro slot h
    rw [findRunStartAux]
    split
    · exact ih _ Nat.and_le_right
    · exact h

lemma findRunStart_le_mask (qf : QuotientFilter) (q : Nat) (h : q ≤ qf.mask) :
    qf.findRunStart q ≤ qf.mask :=
  findRunStartAux_le_mask qf _ q h

lemma findRunEndAux_le_mask (qf : QuotientFilter) :
    ∀ fuel slot, slot ≤ qf.mask → findRunEndAux qf slot fuel ≤ qf.mask := by
  intro fuel
  induction fuel with
  | zero => intro slot h; exact h
  | succ f ih =>
    intro slot h
    rw [findRunEndAux]
    split
    · dsimp only
      split
      · exact h
      · exact ih _ Nat.and_le_right
    · exact h

lemma findRunEnd_le_mask (qf : QuotientFilter) (q : Nat) (h : q ≤ qf.mask) :
    qf.findRunEnd q ≤ qf.mask :=
  findRunEndAux_le_mask qf _ _ (findRunStart_le_mask qf q h)

lemma wrap_dist_zero {N a b : Nat} (ha : a < N) (hb : b < N)
    (hd : (b + N - a) % N = 0) : b = a := by
  have h1 : 0 < b + N - a := by omega
  have h2 : b + N - a < 2 * N := by omega
  obtain ⟨k, hk⟩ := Nat.dvd_of_mod_eq_zero hd
  have hk2 : k < 2 := by
    by_contra hge
    push_neg at hge
    have : N * 2 ≤ N * k := Nat.mul_le_mul_left N hge
    omega
  interval_cases k <;> omega

lemma wrap_dist_ne {N a b d : Nat} (ha : a < N)
    (hd : (b + N - a) % N = d + 1) : a ≠ b := by
  rintro rfl
  have h : a + N - a = N := by omega
  rw [h, Nat.mod_self] at hd
  omega

lemma wrap_dist_succ {N a b d : Nat} (hN : 0 < N) (ha : a < N) (hb : b < N)
    (hd : (b + N - a) % N = d + 1) : (b + N - (a + 1) % N) % N = d := by
  have hdN : d + 1 < N := by
    rw [← hd]; exact Nat.mod_lt _ hN
  rcases Nat.lt_or_ge (a + 1) N with h | h
  · rw [Nat.mod_eq_of_lt h]
    have hx : b + N - a = N * ((b + N - a) / N) + (d + 1) := by
      conv_lhs => rw [← Nat.div_add_mod (b + N - a) N]
      rw [hd]
    have hy : b + N - (a + 1) = N * ((b + N - a) / N) + d := by omega
    rw [hy, Nat.mul_add_mod, Nat.mod_eq_of_lt (by omega)]
  · have haN : a + 1 = N := by omega
    rw [haN, Nat.mod_self, Nat.sub_zero, Nat.add_mod_right, Nat.mod_eq_of_lt hb]
    have hx : b + N - a = b + 1 := by omega
    rw [hx] at hd
    have hble : b + 1 < N := by
      rcases Nat.lt_or_ge (b + 1) N with h' | h'
      · exact h'
      · have hbN : b + 1 = N := by omega
        rw [hbN, Nat.mod_self] at hd
        omega
    rw [Nat.mod_eq_of_lt hble] at hd
    omega

lemma rangeMap_cons (N a d : Nat) (ha : a < N) :
    (List.range (d + 1 + 1)).map (fun j => (a + j) % N) =
      a :: (List.range (d + 1)).map (fun j => ((a + 1) % N + j) % N) := by
  rw [List.range_succ_eq_map, List.map_cons, List.map_map]
  congr 1
  · simpa using Nat.mod_eq_of_lt ha
  · congr 1
    funext j
    show (a + (j + 1)) % N = ((a + 1) % N + j) % N
    rw [Nat.mod_add_mod]
    congr 1
    omega

end QuotientFilter

namespace QuotientFilter

lemma scanRun_true_iff (qf : QuotientFilter) (hm : qf.mask + 1 = 2 ^ qf.quotient)
    (r : Nat) :
    ∀ d a fuel b, a < 2 ^ qf.quotient → b < 2 ^ qf.quotient →
      (b + 2 ^ qf.quotient - a) % 2 ^ qf.quotient = d → d < fuel →
      (qf.scanRun r b a fuel = true ↔
        ∃ i ∈ (List.range (d + 1)).map (fun j => (a + j) % 2 ^ qf.quotient),
          qf.getRemainder i = r) := by
  intro d
  induction d with
  | zero =>
    intro a fuel b ha hb hd hfuel
    obtain ⟨f, rfl⟩ : ∃ f, fuel = f + 1 := ⟨fuel - 1, by omega⟩
    have hba : b = a := wrap_dist_zero ha hb hd
    subst hba
    rw [scanRun]
    by_cases hr : qf.getRemainder b = r
    · simp [hr, Nat.mod_eq_of_lt ha]
    · simp [hr, Nat.mod_eq_of_lt ha]
  | succ d ih =>
    intro a fuel b ha hb hd hfuel
    obtain ⟨f, rfl⟩ : ∃ f, fuel = f + 1 := ⟨fuel - 1, by omega⟩
    have hN : 0 < 2 ^ qf.quotient := Nat.pos_pow_of_pos _ (by norm_num)
    have hab : a ≠ b := wrap_dist_ne ha hd
    rw [scanRun, rangeMap_cons _ _ _ ha]
    by_cases hr : qf.getRemainder a = r
    · simp only [hr, if_true, true_iff]
      exact ⟨a, List.mem_cons_self a _, hr⟩
    · rw [if_neg hr, if_neg hab, and_mask_eq_mod qf hm]
      have ha' : (a + 1) % 2 ^ qf.quotient < 2 ^ qf.quotient := Nat.mod_lt _ hN
      have hd' : (b + 2 ^ qf.quotient - (a + 1) % 2 ^ qf.quotient) % 2 ^ qf.quotient
          = d := wrap_dist_succ hN ha hb hd
      rw [ih ((a + 1) % 2 ^ qf.quotient) f b ha' hb hd' (by omega)]
      constructor
      · rintro ⟨i, hi, hP⟩
        exact ⟨i, List.mem_cons_of_mem a hi, hP⟩
      · rintro ⟨i, hi, hP⟩
        rcases List.mem_cons.mp hi with h | h
        · subst h; exact absurd hP hr
        · exact ⟨i, h, hP⟩

lemma removeScan_not_found (qf : QuotientFilter) (hm : qf.mask + 1 = 2 ^ qf.quotient)
    (quotient r rs re : Nat) :
    ∀ d a fuel, a < 2 ^ qf.quotient → re < 2 ^ qf.quotient →
      (re + 2 ^ qf.quotient - a) % 2 ^ qf.quotient = d → d < fuel →
      (∀ i ∈ (List.range (d + 1)).map (fun j => (a + j) % 2 ^ qf.quotient),
        qf.getRemainder i ≠ r) →
      qf.removeScan quotient r rs re a fuel = (qf, false) := by
  intro d
  induction d with
  | zero =>
    intro a fuel ha hb hd hfuel hnone
    obtain ⟨f, rfl⟩ : ∃ f, fuel = f + 1 := ⟨fuel - 1, by omega⟩
    have hba : re = a := wrap_dist_zero ha hb hd
    have hr : qf.getRemainder a ≠ r := by
      apply hnone
      simp [Nat.mod_eq_of_lt ha]
    rw [removeScan, if_neg hr, if_pos hba.symm]
  | succ d ih =>
    intro a fuel ha hb hd hfuel hnone
    obtain ⟨f, rfl⟩ : ∃ f, fuel = f + 1 := ⟨fuel - 1, by omega⟩
    have hN : 0 < 2 ^ qf.quotient := Nat.pos_pow_of_pos _ (by norm_num)
    have hab : a ≠ re := wrap_dist_ne ha hd
    rw [rangeMap_cons _ _ _ ha] at hnone
    have hr : qf.getRemainder a ≠ r := hnone a (List.mem_cons_self a _)
    rw [removeScan, if_neg hr, if_neg hab, and_mask_eq_mod qf hm]
    have ha' : (a + 1) % 2 ^ qf.quotient < 2 ^ qf.quotient := Nat.mod_lt _ hN
    have hd' : (re + 2 ^ qf.quotient - (a + 1) % 2 ^ qf.quotient) % 2 ^ qf.quotient
        = d := wrap_dist_succ hN ha hb hd
    exact ih _ f ha' hb hd' (by omega)
      (fun i hi => hnone i (List.mem_cons_of_mem a hi))

end QuotientFilter

namespace QuotientFilter

@[simp] lemma count_setWord (qf : QuotientFilter) (i v : Nat) :
    (qf.setWord i v).count = qf.count := rfl

@[simp] lemma count_dataSet (qf : QuotientFilter) (i v : Nat) :
    (qf.dataSet i v).count = qf.count := rfl

@[simp] lemma count_setRemainder (qf : QuotientFilter) (i r : Nat) :
    (qf.setRemainder i r).count = qf.count := rfl

@[simp] lemma count_clearRunEnd (qf : QuotientFilter) (i : Nat) :
    (qf.clearRunEnd i).count = qf.count := rfl

lemma insertIntoSlotAux_count :
    ∀ fuel (qf : QuotientFilter) (orig slot r m : Nat),
      (insertIntoSlotAux qf orig slot r m fuel).count = qf.count := by
  intro fuel
  induction fuel with
  | zero => intro qf orig slot r m; rfl
  | succ f ih =>
    intro qf orig slot r m
    rw [insertIntoSlotAux]
    split
    · rfl
    · dsimp only
      split <;> split <;> simp [ih]

lemma insertIntoSlot_count (qf : QuotientFilter) (slot r q : Nat) :
    (qf.insertIntoSlot slot r q).count = qf.count := by
  unfold insertIntoSlot
  exact insertIntoSlotAux_count _ _ _ _ _ _

end QuotientFilter

open QuotientFilter

/-- Claim C9: `Exists` and `Count` never modify the filter: the state after either
call is the very state passed in, so the slot array, mask, quotient width
and count are all unchanged. -/
theorem exists_count_readonly (qf : QuotientFilter) (data : List Nat) :
    (qf.ExistsOp data).1 = qf ∧ qf.CountOp.1 = qf ∧
    (qf.ExistsOp data).1.data = qf.data ∧ (qf.ExistsOp data).1.mask = qf.mask ∧
    (qf.ExistsOp data).1.quotient = qf.quotient ∧
    (qf.ExistsOp data).1.count = qf.count := by
  have h : (qf.ExistsOp data).1 = qf := by
    unfold ExistsOp
    dsimp only
    split <;> rfl
  exact ⟨h, rfl, by rw [h], by rw [h], by rw [h], by rw [h]⟩

/-- Claim C7: restoring the record produced by `snapshot()` on any other instance
reproduces the slot array, mask, quotient width and count of the snapshotted
filter exactly (round trip), and `restore` replaces exactly those four
fields of whatever state it runs on. -/
theorem snapshot_restore_roundtrip (s t : QuotientFilter) :
    FSM.Restore t (FSM.Snapshot s) = s ∧
    ∀ snap : FSM.SnapshotData,
      FSM.Restore t snap =
        { data := snap.Data, mask := snap.Mask, quotient := snap.Quotient,
          count := snap.Count } := by
  constructor
  · cases s; rfl
  · intro snap; rfl

/-- Claim C8: the state machine is deterministic: two replicas that restore the
same snapshot record and apply the same committed commands in the same
order end with bitwise-identical slot arrays (and identical full states). -/
theorem apply_deterministic (t1 t2 : QuotientFilter) (snap : FSM.SnapshotData)
    (cmds : List RaftCommand) :
    (FSM.applyAll (FSM.Restore t1 snap) cmds).data
        = (FSM.applyAll (FSM.Restore t2 snap) cmds).data ∧
    FSM.applyAll (FSM.Restore t1 snap) cmds
        = FSM.applyAll (FSM.Restore t2 snap) cmds := by
  have h : FSM.Restore t1 snap = FSM.Restore t2 snap := rfl
  rw [h]
  exact ⟨rfl, rfl⟩

/-- Claim C1 (amended): `Insert` returns the `filter is full` error if and only if
`count ≥ 2^q` on entry — the capacity check precedes the presence check, so
an already-present fingerprint also receives the error at capacity — and
whenever the error is returned the filter state is unchanged. -/
theorem insert_full_error_iff (qf : QuotientFilter) (data : List Nat) :
    ((qf.Insert data).2 = true ↔ qf.count ≥ (qf.data.length : Int)) ∧
    ((qf.Insert data).2 = true → (qf.Insert data).1 = qf) := by
  by_cases h : qf.count ≥ (qf.data.length : Int)
  · constructor
    · simp [QuotientFilter.Insert, h]
    · intro _
      simp [QuotientFilter.Insert, h]
  · have h2 : (qf.Insert data).2 = false := by
      by_cases hex : qf.existsUnsafe (qf.hash data).1 (qf.hash data).2
      · simp [QuotientFilter.Insert, h, hex]
      · simp [QuotientFilter.Insert, h, hex]
    constructor
    · rw [h2]
      simp [h]
    · rw [h2]
      intro hcontra
      cases hcontra

/-- Claim C10: the filter-level `Insert` accepts the empty byte string: it
fingerprints the empty string like any other key, never reports an error
while the filter has room, and increments `count` when that fingerprint is
new; there is no emptiness check in the filter itself. -/
theorem insert_accepts_empty_key (qf : QuotientFilter)
    (hroom : qf.count < (qf.data.length : Int)) :
    qf.hash [] = (fnv64a [] &&& qf.mask, fnv64a [] >>> qf.quotient) ∧
    (qf.Insert []).2 = false ∧
    (qf.existsUnsafe (qf.hash []).1 (qf.hash []).2 = false →
      (qf.Insert []).1.count = qf.count + 1) := by
  have hnotfull : ¬ qf.count ≥ (qf.data.length : Int) := by omega
  refine ⟨rfl, ?_, ?_⟩
  · by_cases hex : qf.existsUnsafe (qf.hash []).1 (qf.hash []).2
    · simp [QuotientFilter.Insert, hnotfull, hex]
    · simp [QuotientFilter.Insert, hnotfull, hex]
  · intro hex
    simp [QuotientFilter.Insert, hnotfull, hex, insertIntoSlot_count]

lemma hash_fst_le_mask (qf : QuotientFilter) (data : List Nat) :
    (qf.hash data).1 ≤ qf.mask := by
  simp only [QuotientFilter.hash]
  exact Nat.and_le_right

/-- Claim C5: lookup is exactly a scan of the located run: for every key with
fingerprint `(Q, R)` and every structurally sound filter state, `Exists`
returns false when `occupied[Q] = 0`, and otherwise returns true if and
only if some slot between the located `run_start` and `run_end` stores
remainder `R`. -/
theorem exists_locates_run (qf : QuotientFilter) (data : List Nat)
    (hwf : qf.wellFormed) :
    (qf.isOccupied (qf.hash data).1 = false → (qf.ExistsOp data).2 = false) ∧
    (qf.isOccupied (qf.hash data).1 = true →
      ((qf.ExistsOp data).2 = true ↔
        ∃ i ∈ qf.runSlots (qf.hash data).1,
          qf.getRemainder i = (qf.hash data).2)) := by
  obtain ⟨hn, hm⟩ := hwf
  constructor
  · intro h
    simp [QuotientFilter.ExistsOp, h]
  · intro h
    have hEx : (qf.ExistsOp data).2
        = qf.scanRun (qf.hash data).2 (qf.findRunEnd (qf.hash data).1)
            (qf.findRunStart (qf.hash data).1) (qf.data.length + 1) := by
      simp [QuotientFilter.ExistsOp, h]
    have hQ : (qf.hash data).1 ≤ qf.mask := hash_fst_le_mask qf data
    have hN : 0 < 2 ^ qf.quotient := Nat.pos_pow_of_pos _ (by norm_num)
    have ha : qf.findRunStart (qf.hash data).1 < 2 ^ qf.quotient := by
      have := findRunStart_le_mask qf _ hQ
      omega
    have hb : qf.findRunEnd (qf.hash data).1 < 2 ^ qf.quotient := by
      have := findRunEnd_le_mask qf _ hQ
      omega
    have hdlt : (qf.findRunEnd (qf.hash data).1 + 2 ^ qf.quotient
        - qf.findRunStart (qf.hash data).1) % 2 ^ qf.quotient
        < qf.data.length + 1 := by
      have := Nat.mod_lt (qf.findRunEnd (qf.hash data).1 + 2 ^ qf.quotient
        - qf.findRunStart (qf.hash data).1) hN
      omega
    rw [hEx, scanRun_true_iff qf hm (qf.hash data).2 _ _ _ _ ha hb rfl hdlt]
    simp only [QuotientFilter.runSlots, hn]

/-- Claim C6: removing an absent fingerprint — `occupied[Q] = 0`, or `R` not
stored anywhere in `Q`'s located run — returns false and leaves the filter
(slot array and count) unchanged. -/
theorem remove_absent (qf : QuotientFilter) (data : List Nat)
    (hwf : qf.wellFormed)
    (habs : qf.isOccupied (qf.hash data).1 = false ∨
      ∀ i ∈ qf.runSlots (qf.hash data).1,
        qf.getRemainder i ≠ (qf.hash data).2) :
    qf.Remove data = (qf, false) := by
  obtain ⟨hn, hm⟩ := hwf
  by_cases h : qf.isOccupied (qf.hash data).1
  · rcases habs with habs | habs
    · rw [habs] at h
      cases h
    · have hRem : qf.Remove data
          = qf.removeScan (qf.hash data).1 (qf.hash data).2
              (qf.findRunStart (qf.hash data).1) (qf.findRunEnd (qf.hash data).1)
              (qf.findRunStart (qf.hash data).1) (qf.data.length + 1) := by
        simp [QuotientFilter.Remove, h]
      have hQ : (qf.hash data).1 ≤ qf.mask := hash_fst_le_mask qf data
      have hN : 0 < 2 ^ qf.quotient := Nat.pos_pow_of_pos _ (by norm_num)
      have ha : qf.findRunStart (qf.hash data).1 < 2 ^ qf.quotient := by
        have := findRunStart_le_mask qf _ hQ
        omega
      have hb : qf.findRunEnd (qf.hash data).1 < 2 ^ qf.quotient := by
        have := findRunEnd_le_mask qf _ hQ
        omega
      have hdlt : (qf.findRunEnd (qf.hash data).1 + 2 ^ qf.quotient
          - qf.findRunStart (qf.hash data).1) % 2 ^ qf.quotient
          < qf.data.length + 1 := by
        have := Nat.mod_lt (qf.findRunEnd (qf.hash data).1 + 2 ^ qf.quotient
          - qf.findRunStart (qf.hash data).1) hN
        omega
      rw [hRem]
      apply removeScan_not_found qf hm _ _ _ _ _ _ _ ha hb rfl hdlt
      simp only [QuotientFilter.runSlots, hn] at habs
      exact habs
  · simp [QuotientFilter.Remove, h]

/-- The filter of width `q = 4` after inserting the sixteen single-byte keys
`[0] … [15]`; their FNV-64a quotients happen to cover all sixteen canonical
slots, so every insert lands cleanly and `count` reaches capacity. -/
def qfFull : QuotientFilter :=
  ((List.range 16).map (fun b => [b])).foldl
    (fun s k => (QuotientFilter.Insert s k).1) (NewQuotientFilter 4)

/-- Counterexample to claim C1 as stated: at capacity (`count = 16 = 2^4`)
the fingerprint of key `[0]` is present — `existsUnsafe` and `Exists` both
report it — yet `Insert [0]` returns the `filter is full` error, because
the capacity check precedes the presence check. -/
theorem insert_full_already_present :
    qfFull.count = 16 ∧ qfFull.data.length = 16 ∧
    qfFull.existsUnsafe (qfFull.hash [0]).1 (qfFull.hash [0]).2 = true ∧
    (qfFull.ExistsOp [0]).2 = true ∧
    (QuotientFilter.Insert qfFull [0]).2 = true := by decide

/-- Witness for the amended claim C1 at a concrete input: the full filter
returns the error exactly because `count ≥ 2^q`, leaving the state
unchanged. -/
theorem insert_full_error_iff_witness :
    (QuotientFilter.Insert qfFull [0]).1 = qfFull ∧
    ((QuotientFilter.Insert qfFull [0]).2 = true ↔
      qfFull.count ≥ (qfFull.data.length : Int)) :=
  ⟨(insert_full_error_iff qfFull [0]).2 (by decide),
    (insert_full_error_iff qfFull [0]).1⟩

/-- First insert of the counterexample sequence: key `[5]` (quotient 0). -/
def qfStep1 : QuotientFilter × Bool :=
  QuotientFilter.Insert (NewQuotientFilter 4) [5]

/-- Second insert: key `[21]` (also quotient 0, distinct remainder). -/
def qfStep2 : QuotientFilter × Bool :=
  QuotientFilter.Insert qfStep1.1 [21]

/-- Third insert: key `[14]` (quotient 1). -/
def qfStep3 : QuotientFilter × Bool :=
  QuotientFilter.Insert qfStep2.1 [14]

/-- Fourth insert: key `[14]` again, immediately after its first insert. -/
def qfStep4 : QuotientFilter × Bool :=
  QuotientFilter.Insert qfStep3.1 [14]

/-- Claim C2 evaluated at its failing input: the four inserts
`[5], [21], [14], [14]` all report success and involve only three distinct
fingerprints (nothing is removed), yet `count` ends at 4 — the metadata
written while shifting makes the presence check miss the stored fingerprint
of `[14]`, which is then stored a second time. -/
theorem count_drifts_from_distinct_fingerprints :
    qfStep1.2 = false ∧ qfStep2.2 = false ∧ qfStep3.2 = false ∧
    qfStep4.2 = false ∧
    [(NewQuotientFilter 4).hash [5], qfStep1.1.hash [21], qfStep2.1.hash [14],
      qfStep3.1.hash [14]].dedup.length = 3 ∧
    qfStep4.1.count = 4 := by decide

/-- Claim C3 evaluated at its failing input: insert of `[14]` succeeds, and
an immediate second insert of `[14]` returns success but is not a no-op —
it increments `count` and rewrites the slot array. -/
theorem insert_reinsert_not_noop :
    qfStep3.2 = false ∧ qfStep4.2 = false ∧
    qfStep4.1.count = qfStep3.1.count + 1 ∧
    qfStep4.1.data ≠ qfStep3.1.data := by decide

/-- The filter of width `q = 4` after inserting `[5], [21], [3], [14]`
(quotients 0, 0, 2, 1): a reachable state on which the source's run
location disagrees with the spec's rank-based algorithm. -/
def qfRun : QuotientFilter :=
  [[5], [21], [3], [14]].foldl
    (fun s k => (QuotientFilter.Insert s k).1) (NewQuotientFilter 4)

/-- Claim C4 evaluated at its failing input: for the occupied canonical
quotient `Q = 2`, `findRunStart`/`findRunEnd` return the slot range
`[1, 1]`, while the spec's cluster-start/rank/skip algorithm returns
`[3, 3]` — and slot 3 is where the remainder of key `[3]` (canonical
quotient 2) actually lives, so the located run misses it and `Exists`
on the inserted key `[3]` reports false. -/
theorem run_location_differs_from_spec :
    qfRun.isOccupied 2 = true ∧
    (qfRun.hash [3]).1 = 2 ∧
    qfRun.findRunStart 2 = 1 ∧ qfRun.findRunEnd 2 = 1 ∧
    qfRun.specRunOfQuotient 2 = (3, 3) ∧
    qfRun.getRemainder 3 = (qfRun.hash [3]).2 ∧
    qfRun.getRemainder 1 ≠ (qfRun.hash [3]).2 ∧
    (qfRun.ExistsOp [3]).2 = false := by decide

/-- Witness for claim C5 at a concrete input: the fresh filter is well
formed and `Exists` returns false for key `[0]`, whose canonical slot is
unoccupied. -/
theorem exists_locates_run_witness :
    (NewQuotientFilter 4).wellFormed ∧
    (((NewQuotientFilter 4).isOccupied ((NewQuotientFilter 4).hash [0]).1
        = false) →
      ((NewQuotientFilter 4).ExistsOp [0]).2 = false) :=
  ⟨by decide, (exists_locates_run (NewQuotientFilter 4) [0] (by decide)).1⟩

/-- Witness for claim C6 at a concrete input: removing the never-inserted
key `[0]` from a fresh filter returns false and leaves the state intact. -/
theorem remove_absent_witness :
    (NewQuotientFilter 4).wellFormed ∧
    (NewQuotientFilter 4).isOccupied ((NewQuotientFilter 4).hash [0]).1
      = false ∧
    QuotientFilter.Remove (NewQuotientFilter 4) [0]
      = (NewQuotientFilter 4, false) :=
  ⟨by decide, by decide,
    remove_absent (NewQuotientFilter 4) [0] (by decide) (Or.inl (by decide))⟩

/-- Witness for claim C10 at a concrete input: inserting the empty byte
string into a fresh filter succeeds and sets `count` to 1. -/
theorem insert_accepts_empty_key_witness :
    (NewQuotientFilter 4).count < ((NewQuotientFilter 4).data.length : Int) ∧
    (QuotientFilter.Insert (NewQuotientFilter 4) []).2 = false ∧
    (QuotientFilter.Insert (NewQuotientFilter 4) []).1.count
      = (NewQuotientFilter 4).count + 1 :=
  ⟨by decide, (insert_accepts_empty_key (NewQuotientFilter 4) (by decide)).2.1,
    (insert_accepts_empty_key (NewQuotientFilter 4) (by decide)).2.2 (by decide)⟩
